import Mathlib

/-!
Verification of the trap-enabling subsystem of the `batman` crate
(`src/src/lib.rs`): the idempotent per-thread/per-process enabling protocol
around `signal()`, the two atomic flags `INITIALIZED` (thread-local) and
`HANDLING` (process-wide), the conditional fault-handler installation, and
the hardware unmask of the floating-point control register.

The development has two layers:
* a sequential functional embedding `signalEff` of one invocation of
  `signal()` on a single thread, acting on that thread's visible state and
  reporting the side effects performed;
* a small-step interleaving model (`StepBy` / `Step`) of arbitrarily many
  threads running `signal()` concurrently, used for ordering, monotonicity,
  uniqueness-of-installer and lock-freedom properties.
-/

set_option autoImplicit false

/-- Modelled from the spec: the repository's architecture module
(`x86_64::enable_fp_exceptions`, called at src/src/lib.rs line 63) is not
present under `src/`.  Per the spec (§4.2 Hardware FPU Controller) it reads
the calling thread's floating-point control register, clears exactly the
mask bits for divide-by-zero and invalid-operation, leaves every other bit
unchanged, and writes the register back.  The register is modelled as a
32-bit word with the MXCSR layout: invalid-operation mask = bit 7,
divide-by-zero mask = bit 9; `0xFFFFFD7F` is the complement of those two
bits in 32 bits. -/
def enable_fp_exceptions (cw : Nat) : Nat :=
  cw &&& 0xFFFFFD7F

/-- Target architectures distinguished by the `cfg` attributes in
src/src/lib.rs: `x86`, `x86_64`, and everything else. -/
inductive Arch where
  | x86
  | x86_64
  | otherArch
deriving DecidableEq

/-- Target platforms distinguished by the `cfg` attributes in
src/src/lib.rs: `unix`, `windows`, and everything else. -/
inductive Platform where
  | unix
  | windows
  | otherPlatform
deriving DecidableEq

/-- From lines 62–65 of src/src/lib.rs: the architecture is supported
(`enable_fp_exceptions` compiles instead of `compile_error!`) exactly for
`x86` and `x86_64`. -/
def archSupported : Arch → Bool
  | .x86 => true
  | .x86_64 => true
  | .otherArch => false

/-- From lines 55–60 of src/src/lib.rs: the fault-handler installation call
is compiled in under `#[cfg(unix)]` (`unix::install_signal_handler`) or
`#[cfg(windows)]` (`windows::install_exception_handler`); on any other
platform neither call exists in the compiled body. -/
def platformSupported : Platform → Bool
  | .unix => true
  | .windows => true
  | .otherPlatform => false

/-- Whether the crate builds for a given target.  The only `compile_error!`
in src/src/lib.rs (line 65) fires when the architecture is neither `x86`
nor `x86_64`; there is no corresponding build-time rejection of an
unsupported platform. -/
def buildCompiles (a : Arch) (_p : Platform) : Bool :=
  archSupported a

/-- Memory orderings of Rust's `std::sync::atomic::Ordering`, as far as the
source mentions them. -/
inductive MemOrd where
  | relaxed
  | acquire
  | release
  | acqRel
  | seqCst
deriving DecidableEq

/-- Ordering arguments of the `compare_exchange` on the thread-local
`INITIALIZED` flag, src/src/lib.rs line 48: `(success, failure)`. -/
def initializedCasOrderings : MemOrd × MemOrd :=
  (MemOrd.seqCst, MemOrd.acquire)

/-- Ordering arguments of the `compare_exchange` on the process-wide
`HANDLING` flag, src/src/lib.rs line 53: `(success, failure)`. -/
def handlingCasOrderings : MemOrd × MemOrd :=
  (MemOrd.seqCst, MemOrd.acquire)

/-- State visible to one invocation of `signal()` on one thread:
the calling thread's `INITIALIZED` flag, the process-wide `HANDLING` flag,
whether the process fault handler has been installed, and the calling
thread's floating-point control word. -/
structure TState where
  initialized : Bool
  handling : Bool
  handlerInstalled : Bool
  cw : Nat
deriving DecidableEq

/-- Side effects one invocation of `signal()` performs, recorded for the
observability claims: whether the fault-handler installation routine ran,
whether the hardware control register was written, and whether each of the
two flags was written (a failed `compare_exchange` does not write). -/
structure Effects where
  installedHandler : Bool
  unmaskedHW : Bool
  wroteInit : Bool
  wroteHandling : Bool
deriving DecidableEq

/-- The empty effect set: nothing installed, no register write, no flag
write. -/
def noEffects : Effects :=
  ⟨false, false, false, false⟩

/-- Semantics of `AtomicBool::compare_exchange cur (expected, new)`:
returns (succeeded, resulting flag value); on failure the flag is not
written. -/
def cas (cur expected new : Bool) : Bool × Bool :=
  if cur = expected then (true, new) else (false, cur)

/-- Embedding of one invocation of `pub unsafe fn signal()`
(src/src/lib.rs lines 46–69), compiled for platform `p`:
`INITIALIZED.compare_exchange(false, true, SeqCst, Acquire)`; if it
succeeds, `HANDLING.compare_exchange(false, true, SeqCst, Acquire)`, and on
success of that the platform fault-handler installation (present in the
build only when `p` is unix or windows); then, unconditionally on this
path, `x86_64::enable_fp_exceptions()`.  If the first exchange fails the
body does nothing else.  The body contains no `cfg(debug_assertions)`
guard, so this is the compiled body in debug and release builds alike. -/
def signalEff (p : Platform) (s : TState) : TState × Effects :=
  let exch := cas s.initialized false true
  let s1 : TState := { s with initialized := exch.2 }
  if exch.1 then
    let exch2 := cas s1.handling false true
    let s2 : TState := { s1 with handling := exch2.2 }
    let installed := exch2.1 && platformSupported p
    let s3 : TState :=
      if installed then { s2 with handlerInstalled := true } else s2
    let s4 : TState := { s3 with cw := enable_fp_exceptions s3.cw }
    (s4, ⟨installed, true, true, exch2.1⟩)
  else
    (s1, noEffects)

/-- Embedding of `signal()` as seen from a given build configuration.  The
function's doc comment (src/src/lib.rs line 41) claims it is a no-op when
debug assertions are disabled, but the body contains no
`cfg(debug_assertions)` or `debug_assertions()` check of any kind, so the
compiled behaviour is independent of the `debugAssertions` flag. -/
def signalBuild (_debugAssertions : Bool) (p : Platform) (s : TState) :
    TState × Effects :=
  signalEff p s

/-- Iterate `signal()` `n` times sequentially on one thread, counting how
many times the hardware unmask ran and how many times the fault-handler
installation ran. -/
def runN (p : Platform) : Nat → TState → TState × Nat × Nat
  | 0, s => (s, 0, 0)
  | n + 1, s =>
    let r := signalEff p s
    let rest := runN p n r.1
    (rest.1,
     rest.2.1 + (if r.2.unmaskedHW then 1 else 0),
     rest.2.2 + (if r.2.installedHandler then 1 else 0))

/-- Program counter of one thread executing `signal()`: about to do the
`INITIALIZED` compare-exchange (`start`), won it (`gateWon`), about to run
the fault-handler installation (`installing`), about to run the hardware
unmask (`unmasking`), or finished (`done`). -/
inductive PC where
  | start
  | gateWon
  | installing
  | unmasking
  | done
deriving DecidableEq

/-- Global state of the concurrent model, threads indexed by `Nat`.
`winner` and `installCount` are ghost observers: `winner` records which
thread (if any) has succeeded the `HANDLING` compare-exchange, and
`installCount` counts executions of the fault-handler installation.  The
model fixes a build for a supported platform (unix or windows), where the
installation call is compiled in. -/
structure CState where
  initialized : Nat → Bool
  handling : Bool
  handlerInstalled : Bool
  cw : Nat → Nat
  pc : Nat → PC
  winner : Option Nat
  installCount : Nat

/-- One atomic step of thread `t` inside `signal()`.  Each constructor is
one line of src/src/lib.rs: the two compare-exchanges (with their success
and failure outcomes), the fault-handler installation, and the hardware
unmask.  Note the `HANDLING` flag is set by the compare-exchange itself
(line 53), strictly before the separate installation step (lines 55–59). -/
inductive StepBy (t : Nat) : CState → CState → Prop where
  | initWin (s : CState) (hpc : s.pc t = PC.start)
      (hflag : s.initialized t = false) :
      StepBy t s { s with initialized := Function.update s.initialized t true,
                          pc := Function.update s.pc t PC.gateWon }
  | initLose (s : CState) (hpc : s.pc t = PC.start)
      (hflag : s.initialized t = true) :
      StepBy t s { s with pc := Function.update s.pc t PC.done }
  | handWin (s : CState) (hpc : s.pc t = PC.gateWon)
      (hflag : s.handling = false) :
      StepBy t s { s with handling := true,
                          winner := some t,
                          pc := Function.update s.pc t PC.installing }
  | handLose (s : CState) (hpc : s.pc t = PC.gateWon)
      (hflag : s.handling = true) :
      StepBy t s { s with pc := Function.update s.pc t PC.unmasking }
  | install (s : CState) (hpc : s.pc t = PC.installing) :
      StepBy t s { s with handlerInstalled := true,
                          installCount := s.installCount + 1,
                          pc := Function.update s.pc t PC.unmasking }
  | unmask (s : CState) (hpc : s.pc t = PC.unmasking) :
      StepBy t s { s with cw := Function.update s.cw t
                            (enable_fp_exceptions (s.cw t)),
                          pc := Function.update s.pc t PC.done }

/-- A step of the system: some thread takes a step. -/
def Step (s s' : CState) : Prop :=
  ∃ t, StepBy t s s'

/-- Initial state: no thread has called `signal()` yet, both flags are
false everywhere, no handler installed; `cw₀` gives each thread's initial
control word. -/
def initState (cw₀ : Nat → Nat) : CState :=
  { initialized := fun _ => false
    handling := false
    handlerInstalled := false
    cw := cw₀
    pc := fun _ => PC.start
    winner := none
    installCount := 0 }

/-- States reachable from the initial state by interleaved steps of
arbitrarily many threads each running `signal()`. -/
def Reachable (cw₀ : Nat → Nat) (s : CState) : Prop :=
  Relation.ReflTransGen Step (initState cw₀) s

/-- Number of steps thread `t` still has to take from a given program
counter; every step of `t` strictly decreases it. -/
def rank : PC → Nat
  | .start => 4
  | .gateWon => 3
  | .installing => 2
  | .unmasking => 1
  | .done => 0

/-- Inductive invariant of the concurrent model: (A) the `HANDLING` flag is
true exactly when some thread has won the `HANDLING` compare-exchange;
(B) only that winner can be at the installation step; (C) before anyone
wins, nothing is installed; (D) the winner either has not yet run the
installation (count 0, handler absent) or has passed it (count 1, handler
present); (E) a thread about to unmask has already observed `HANDLING`
true. -/
def SysInv (s : CState) : Prop :=
  (s.winner.isSome ↔ s.handling = true) ∧
  (∀ t, s.pc t = PC.installing → s.winner = some t) ∧
  (s.winner = none → s.installCount = 0 ∧ s.handlerInstalled = false) ∧
  (∀ t, s.winner = some t →
    (s.pc t = PC.installing ∧ s.installCount = 0 ∧
      s.handlerInstalled = false) ∨
    (s.pc t ≠ PC.installing ∧ s.installCount = 1 ∧
      s.handlerInstalled = true)) ∧
  (∀ t, s.pc t = PC.unmasking → s.handling = true)

theorem sysInv_initState (cw₀ : Nat → Nat) : SysInv (initState cw₀) := by
  refine ⟨by simp [initState], ?_, by simp [initState], ?_, ?_⟩ <;>
    intro t h <;> simp [initState] at h

theorem sysInv_step {s s' : CState} (hinv : SysInv s) (hstep : Step s s') :
    SysInv s' := by
  obtain ⟨t, hstep⟩ := hstep
  obtain ⟨hA, hB, hC, hD, hE⟩ := hinv
  cases hstep with
  | initWin hpc hflag =>
    refine ⟨hA, ?_, hC, ?_, ?_⟩
    · intro u hu
      dsimp only at hu
      show s.winner = some u
      by_cases hut : u = t
      · subst hut
        rw [Function.update_same] at hu
        exact absurd hu (by decide)
      · rw [Function.update_noteq hut] at hu
        exact hB u hu
    · intro u hu
      rcases hD u hu with ⟨h1, h2, h3⟩ | ⟨h1, h2, h3⟩
      · by_cases hut : u = t
        · subst hut
          rw [hpc] at h1
          exact absurd h1 (by decide)
        · refine Or.inl ⟨?_, h2, h3⟩
          show Function.update s.pc t PC.gateWon u = PC.installing
          rw [Function.update_noteq hut]
          exact h1
      · refine Or.inr ⟨?_, h2, h3⟩
        show ¬ Function.update s.pc t PC.gateWon u = PC.installing
        by_cases hut : u = t
        · subst hut
          rw [Function.update_same]
          decide
        · rw [Function.update_noteq hut]
          exact h1
    · intro u hu
      dsimp only at hu
      show s.handling = true
      by_cases hut : u = t
      · subst hut
        rw [Function.update_same] at hu
        exact absurd hu (by decide)
      · rw [Function.update_noteq hut] at hu
        exact hE u hu
  | initLose hpc hflag =>
    refine ⟨hA, ?_, hC, ?_, ?_⟩
    · intro u hu
      dsimp only at hu
      show s.winner = some u
      by_cases hut : u = t
      · subst hut
        rw [Function.update_same] at hu
        exact absurd hu (by decide)
      · rw [Function.update_noteq hut] at hu
        exact hB u hu
    · intro u hu
      rcases hD u hu with ⟨h1, h2, h3⟩ | ⟨h1, h2, h3⟩
      · by_cases hut : u = t
        · subst hut
          rw [hpc] at h1
          exact absurd h1 (by decide)
        · refine Or.inl ⟨?_, h2, h3⟩
          show Function.update s.pc t PC.done u = PC.installing
          rw [Function.update_noteq hut]
          exact h1
      · refine Or.inr ⟨?_, h2, h3⟩
        show ¬ Function.update s.pc t PC.done u = PC.installing
        by_cases hut : u = t
        · subst hut
          rw [Function.update_same]
          decide
        · rw [Function.update_noteq hut]
          exact h1
    · intro u hu
      dsimp only at hu
      show s.handling = true
      by_cases hut : u = t
      · subst hut
        rw [Function.update_same] at hu
        exact absurd hu (by decide)
      · rw [Function.update_noteq hut] at hu
        exact hE u hu
  | handWin hpc hflag =>
    have hwnone : s.winner = none := by
      cases hw : s.winner with
      | none => rfl
      | some w =>
        have hh : s.handling = true := hA.mp (by simp [hw])
        rw [hflag] at hh
        exact absurd hh (by decide)
    refine ⟨by simp, ?_, by simp, ?_, ?_⟩
    · intro u hu
      dsimp only at hu
      show some t = some u
      by_cases hut : u = t
      · subst hut
        rfl
      · rw [Function.update_noteq hut] at hu
        have hb := hB u hu
        rw [hwnone] at hb
        exact absurd hb (by simp)
    · intro u hu
      have hu2 : some t = some u := hu
      have hut : t = u := Option.some.inj hu2
      subst hut
      refine Or.inl ⟨?_, (hC hwnone).1, (hC hwnone).2⟩
      show Function.update s.pc t PC.installing t = PC.installing
      rw [Function.update_same]
    · intro u _
      rfl
  | handLose hpc hflag =>
    refine ⟨hA, ?_, hC, ?_, ?_⟩
    · intro u hu
      dsimp only at hu
      show s.winner = some u
      by_cases hut : u = t
      · subst hut
        rw [Function.update_same] at hu
        exact absurd hu (by decide)
      · rw [Function.update_noteq hut] at hu
        exact hB u hu
    · intro u hu
      rcases hD u hu with ⟨h1, h2, h3⟩ | ⟨h1, h2, h3⟩
      · by_cases hut : u = t
        · subst hut
          rw [hpc] at h1
          exact absurd h1 (by decide)
        · refine Or.inl ⟨?_, h2, h3⟩
          show Function.update s.pc t PC.unmasking u = PC.installing
          rw [Function.update_noteq hut]
          exact h1
      · refine Or.inr ⟨?_, h2, h3⟩
        show ¬ Function.update s.pc t PC.unmasking u = PC.installing
        by_cases hut : u = t
        · subst hut
          rw [Function.update_same]
          decide
        · rw [Function.update_noteq hut]
          exact h1
    · intro u _
      exact hflag
  | install hpc =>
    have hwt : s.winner = some t := hB t hpc
    have hcount : s.installCount = 0 ∧ s.handlerInstalled = false := by
      rcases hD t hwt with ⟨_, h2, h3⟩ | ⟨h1, _, _⟩
      · exact ⟨h2, h3⟩
      · exact absurd hpc h1
    refine ⟨hA, ?_, ?_, ?_, ?_⟩
    · intro u hu
      dsimp only at hu
      show s.winner = some u
      by_cases hut : u = t
      · subst hut
        exact hwt
      · rw [Function.update_noteq hut] at hu
        exact hB u hu
    · intro hnone
      have hnone2 : s.winner = none := hnone
      rw [hwt] at hnone2
      exact absurd hnone2 (by simp)
    · intro u hu
      have hu2 : s.winner = some u := hu
      rw [hwt] at hu2
      have hut : t = u := Option.some.inj hu2
      subst hut
      refine Or.inr ⟨?_, ?_, rfl⟩
      · show ¬ Function.update s.pc t PC.unmasking t = PC.installing
        rw [Function.update_same]
        decide
      · show s.installCount + 1 = 1
        rw [hcount.1]
    · intro u hu
      dsimp only at hu
      show s.handling = true
      by_cases hut : u = t
      · exact hA.mp (by simp [hwt])
      · rw [Function.update_noteq hut] at hu
        exact hE u hu
  | unmask hpc =>
    refine ⟨hA, ?_, hC, ?_, ?_⟩
    · intro u hu
      dsimp only at hu
      show s.winner = some u
      by_cases hut : u = t
      · subst hut
        rw [Function.update_same] at hu
        exact absurd hu (by decide)
      · rw [Function.update_noteq hut] at hu
        exact hB u hu
    · intro u hu
      rcases hD u hu with ⟨h1, h2, h3⟩ | ⟨h1, h2, h3⟩
      · by_cases hut : u = t
        · subst hut
          rw [hpc] at h1
          exact absurd h1 (by decide)
        · refine Or.inl ⟨?_, h2, h3⟩
          show Function.update s.pc t PC.done u = PC.installing
          rw [Function.update_noteq hut]
          exact h1
      · refine Or.inr ⟨?_, h2, h3⟩
        show ¬ Function.update s.pc t PC.done u = PC.installing
        by_cases hut : u = t
        · subst hut
          rw [Function.update_same]
          decide
        · rw [Function.update_noteq hut]
          exact h1
    · intro u hu
      dsimp only at hu
      show s.handling = true
      by_cases hut : u = t
      · exact hE t hpc
      · rw [Function.update_noteq hut] at hu
        exact hE u hu

theorem reachable_sysInv {cw₀ : Nat → Nat} {s : CState}
    (h : Reachable cw₀ s) : SysInv s := by
  induction h with
  | refl => exact sysInv_initState cw₀
  | tail _ hstep ih => exact sysInv_step ih hstep

theorem stepBy_mono {t : Nat} {s s' : CState} (h : StepBy t s s') :
    (∀ u, s.initialized u = true → s'.initialized u = true) ∧
    (s.handling = true → s'.handling = true) ∧
    (s.handlerInstalled = true → s'.handlerInstalled = true) ∧
    (∀ u i, (s.cw u).testBit i = false → (s'.cw u).testBit i = false) := by
  cases h with
  | initWin hpc hflag =>
    refine ⟨?_, fun h => h, fun h => h, fun u i h => h⟩
    intro u hu
    show Function.update s.initialized t true u = true
    by_cases hut : u = t
    · subst hut
      rw [Function.update_same]
    · rw [Function.update_noteq hut]
      exact hu
  | initLose hpc hflag =>
    exact ⟨fun u h => h, fun h => h, fun h => h, fun u i h => h⟩
  | handWin hpc hflag =>
    exact ⟨fun u h => h, fun _ => rfl, fun h => h, fun u i h => h⟩
  | handLose hpc hflag =>
    exact ⟨fun u h => h, fun h => h, fun h => h, fun u i h => h⟩
  | install hpc =>
    exact ⟨fun u h => h, fun h => h, fun _ => rfl, fun u i h => h⟩
  | unmask hpc =>
    refine ⟨fun u h => h, fun h => h, fun h => h, ?_⟩
    intro u i hu
    show (Function.update s.cw t (enable_fp_exceptions (s.cw t)) u).testBit i
      = false
    by_cases hut : u = t
    · subst hut
      rw [Function.update_same, enable_fp_exceptions, Nat.testBit_land, hu]
      rfl
    · rw [Function.update_noteq hut]
      exact hu

theorem steps_mono {s s' : CState}
    (h : Relation.ReflTransGen Step s s') :
    (∀ u, s.initialized u = true → s'.initialized u = true) ∧
    (s.handling = true → s'.handling = true) ∧
    (s.handlerInstalled = true → s'.handlerInstalled = true) ∧
    (∀ u i, (s.cw u).testBit i = false → (s'.cw u).testBit i = false) := by
  induction h with
  | refl => exact ⟨fun u h => h, fun h => h, fun h => h, fun u i h => h⟩
  | tail _ hstep ih =>
    obtain ⟨t, hstep⟩ := hstep
    have hm := stepBy_mono hstep
    exact ⟨fun u h => hm.1 u (ih.1 u h),
      fun h => hm.2.1 (ih.2.1 h),
      fun h => hm.2.2.1 (ih.2.2.1 h),
      fun u i h => hm.2.2.2 u i (ih.2.2.2 u i h)⟩

theorem stepBy_enabled (s : CState) (t : Nat) (h : s.pc t ≠ PC.done) :
    ∃ s', StepBy t s s' := by
  cases hpc : s.pc t with
  | start =>
    cases hflag : s.initialized t with
    | false => exact ⟨_, StepBy.initWin s hpc hflag⟩
    | true => exact ⟨_, StepBy.initLose s hpc hflag⟩
  | gateWon =>
    cases hflag : s.handling with
    | false => exact ⟨_, StepBy.handWin s hpc hflag⟩
    | true => exact ⟨_, StepBy.handLose s hpc hflag⟩
  | installing => exact ⟨_, StepBy.install s hpc⟩
  | unmasking => exact ⟨_, StepBy.unmask s hpc⟩
  | done => exact absurd hpc h

theorem stepBy_rank_decreases {t : Nat} {s s' : CState}
    (h : StepBy t s s') : rank (s'.pc t) < rank (s.pc t) := by
  cases h with
  | initWin hpc hflag =>
    show rank (Function.update s.pc t PC.gateWon t) < rank (s.pc t)
    rw [Function.update_same, hpc]
    decide
  | initLose hpc hflag =>
    show rank (Function.update s.pc t PC.done t) < rank (s.pc t)
    rw [Function.update_same, hpc]
    decide
  | handWin hpc hflag =>
    show rank (Function.update s.pc t PC.installing t) < rank (s.pc t)
    rw [Function.update_same, hpc]
    decide
  | handLose hpc hflag =>
    show rank (Function.update s.pc t PC.unmasking t) < rank (s.pc t)
    rw [Function.update_same, hpc]
    decide
  | install hpc =>
    show rank (Function.update s.pc t PC.unmasking t) < rank (s.pc t)
    rw [Function.update_same, hpc]
    decide
  | unmask hpc =>
    show rank (Function.update s.pc t PC.done t) < rank (s.pc t)
    rw [Function.update_same, hpc]
    decide

theorem stepBy_other_pc {t u : Nat} {s s' : CState} (h : StepBy u s s')
    (hne : u ≠ t) : s'.pc t = s.pc t := by
  cases h with
  | initWin hpc hflag =>
    show Function.update s.pc u PC.gateWon t = s.pc t
    rw [Function.update_noteq (Ne.symm hne)]
  | initLose hpc hflag =>
    show Function.update s.pc u PC.done t = s.pc t
    rw [Function.update_noteq (Ne.symm hne)]
  | handWin hpc hflag =>
    show Function.update s.pc u PC.installing t = s.pc t
    rw [Function.update_noteq (Ne.symm hne)]
  | handLose hpc hflag =>
    show Function.update s.pc u PC.unmasking t = s.pc t
    rw [Function.update_noteq (Ne.symm hne)]
  | install hpc =>
    show Function.update s.pc u PC.unmasking t = s.pc t
    rw [Function.update_noteq (Ne.symm hne)]
  | unmask hpc =>
    show Function.update s.pc u PC.done t = s.pc t
    rw [Function.update_noteq (Ne.symm hne)]

theorem signalEff_noop {p : Platform} {s : TState}
    (h : s.initialized = true) : signalEff p s = (s, noEffects) := by
  obtain ⟨i, hh, hi, c⟩ := s
  cases i with
  | false => simp at h
  | true => simp [signalEff, cas, noEffects]

theorem runN_noop {p : Platform} (n : Nat) {s : TState}
    (h : s.initialized = true) : runN p n s = (s, 0, 0) := by
  induction n with
  | zero => rfl
  | succ k ih => simp [runN, signalEff_noop h, ih, noEffects]

theorem signalEff_first {p : Platform} {s : TState}
    (h : s.initialized = false) :
    (signalEff p s).1.initialized = true ∧
    (signalEff p s).2.unmaskedHW = true := by
  obtain ⟨i, hh, hi, c⟩ := s
  cases i with
  | false => cases hh <;> simp [signalEff, cas] <;> split <;> rfl
  | true => simp at h

/-- Claim C1: the spec (and the doc comment at src/src/lib.rs line 41)
states that with debug assertions disabled `signal()` is a complete no-op
leaving both flags unchanged.  The compiled body, however, contains no
`cfg(debug_assertions)` gate: evaluated at the failing input — a release
build (`debugAssertions = false`), first call on a thread, both flags false
— the call flips `INITIALIZED` and `HANDLING` to true, installs the
handler, performs the hardware unmask, and its effect set is non-empty. -/
theorem C1_release_build_not_inert :
    (signalBuild false Platform.unix ⟨false, false, false, 0x1F80⟩).1 =
      ⟨true, true, true, 0x1D00⟩ ∧
    (signalBuild false Platform.unix ⟨false, false, false, 0x1F80⟩).2 ≠
      noEffects ∧
    signalBuild false = signalBuild true := by
  refine ⟨by decide, by decide, rfl⟩

/-- Claim C3: invoking `signal()` `N ≥ 1` times sequentially on one thread,
starting from a fresh thread (`INITIALIZED = false`), performs exactly one
hardware unmask and at most one process-wide handler installation, and
every call on a thread whose `INITIALIZED` flag is already set returns the
state unchanged with the empty effect set (no flag write, no install, no
register write). -/
theorem C3_idempotent (p : Platform) (N : Nat) (hN : 1 ≤ N) (s : TState)
    (hs : s.initialized = false) :
    (runN p N s).2.1 = 1 ∧ (runN p N s).2.2 ≤ 1 ∧
    ∀ s' : TState, s'.initialized = true →
      signalEff p s' = (s', noEffects) := by
  obtain ⟨M, rfl⟩ : ∃ M, N = M + 1 := ⟨N - 1, by omega⟩
  have hfirst := signalEff_first (p := p) hs
  have hrest := runN_noop (p := p) M hfirst.1
  refine ⟨?_, ?_, fun s' h => signalEff_noop h⟩
  · show (runN p M (signalEff p s).1).2.1 +
      (if (signalEff p s).2.unmaskedHW then 1 else 0) = 1
    rw [hrest, hfirst.2]
    rfl
  · show (runN p M (signalEff p s).1).2.2 +
      (if (signalEff p s).2.installedHandler then 1 else 0) ≤ 1
    rw [hrest]
    cases (signalEff p s).2.installedHandler <;> simp

theorem C3_witness :
    (runN Platform.unix 2 ⟨false, false, false, 0x1F80⟩).2.1 = 1 ∧
    (runN Platform.unix 2 ⟨false, false, false, 0x1F80⟩).2.2 ≤ 1 :=
  ⟨(C3_idempotent Platform.unix 2 (by decide) _ rfl).1,
   (C3_idempotent Platform.unix 2 (by decide) _ rfl).2.1⟩

/-- Claim C4: on a supported platform, `signal()` follows exactly the
documented algorithm — the thread-local compare-exchange (false→true)
selects the first-on-thread winner and a non-winner invocation is a
complete no-op; the winner performs the process-wide compare-exchange
(false→true) and the handler installation runs iff that exchange succeeds
(iff `HANDLING` was false); the hardware unmask runs unconditionally for
every thread-local winner. -/
theorem C4_gate_algorithm (p : Platform) (hp : platformSupported p = true)
    (s : TState) :
    (s.initialized = true → signalEff p s = (s, noEffects)) ∧
    (s.initialized = false →
      (signalEff p s).1.initialized = true ∧
      (signalEff p s).2.unmaskedHW = true ∧
      ((signalEff p s).2.installedHandler = true ↔ s.handling = false) ∧
      (signalEff p s).1.handling = true) := by
  obtain ⟨i, h, hi, c⟩ := s
  cases i <;> cases h <;> simp [signalEff, cas, noEffects, hp]

theorem C4_witness :
    (signalEff Platform.unix ⟨false, false, false, 0x1F80⟩).2.installedHandler
      = true ∧
    (signalEff Platform.unix ⟨false, true, true, 0x1F80⟩).2.installedHandler
      = false ∧
    (signalEff Platform.unix ⟨false, true, true, 0x1F80⟩).2.unmaskedHW
      = true := by
  refine ⟨((C4_gate_algorithm Platform.unix rfl _).2 rfl).2.2.1.mpr rfl,
    ?_, ((C4_gate_algorithm Platform.unix rfl _).2 rfl).2.1⟩
  have h := ((C4_gate_algorithm Platform.unix rfl
    ⟨false, true, true, 0x1F80⟩).2 rfl).2.2.1
  cases hcase : (signalEff Platform.unix
      ⟨false, true, true, 0x1F80⟩).2.installedHandler with
  | false => rfl
  | true => exact absurd (h.mp hcase) (by decide)

/-- Claim C10: `signal()` is deterministic in the pre-state of the two
flags: for any two pre-states agreeing on the calling thread's
`INITIALIZED` flag and the process-wide `HANDLING` flag, the two runs
produce the same effect set (handler installed or not, hardware unmask
performed or not, flags written or not) and the same post-state of both
flags. -/
theorem C10_deterministic (p : Platform) (s s' : TState)
    (h1 : s.initialized = s'.initialized) (h2 : s.handling = s'.handling) :
    (signalEff p s).2 = (signalEff p s').2 ∧
    (signalEff p s).1.initialized = (signalEff p s').1.initialized ∧
    (signalEff p s).1.handling = (signalEff p s').1.handling := by
  obtain ⟨i, h, hi, c⟩ := s
  obtain ⟨i', h', hi', c'⟩ := s'
  simp only at h1 h2
  subst h1
  subst h2
  cases i <;> cases h <;> simp [signalEff, cas] <;> constructor <;>
    split <;> rfl

theorem C10_witness :
    (signalEff Platform.unix ⟨false, false, false, 7⟩).2 =
    (signalEff Platform.unix ⟨false, false, true, 99⟩).2 :=
  (C10_deterministic Platform.unix _ _ rfl rfl).1

/-- Claim C9: the hardware unmask is a strict read-modify-write of the
32-bit floating-point control register: it clears exactly the
divide-by-zero mask bit (bit 9) and the invalid-operation mask bit (bit 7)
and leaves every other bit of the register unchanged. -/
theorem C9_unmask_frame (cw : Nat) (h : cw < 2 ^ 32) :
    (enable_fp_exceptions cw).testBit 7 = false ∧
    (enable_fp_exceptions cw).testBit 9 = false ∧
    ∀ i, i ≠ 7 → i ≠ 9 →
      (enable_fp_exceptions cw).testBit i = cw.testBit i := by
  refine ⟨?_, ?_, ?_⟩
  · rw [enable_fp_exceptions, Nat.testBit_land]
    have hC : Nat.testBit 0xFFFFFD7F 7 = false := by decide
    rw [hC, Bool.and_false]
  · rw [enable_fp_exceptions, Nat.testBit_land]
    have hC : Nat.testBit 0xFFFFFD7F 9 = false := by decide
    rw [hC, Bool.and_false]
  · intro i h7 h9
    rw [enable_fp_exceptions, Nat.testBit_land]
    rcases lt_or_ge i 32 with hi | hi
    · have hC : Nat.testBit 0xFFFFFD7F i = true := by
        interval_cases i <;> first
          | decide
          | (exact absurd rfl h7)
          | (exact absurd rfl h9)
      rw [hC, Bool.and_true]
    · have hcw : cw.testBit i = false :=
        Nat.testBit_eq_false_of_lt
          (lt_of_lt_of_le h (Nat.pow_le_pow_right (by norm_num) hi))
      have hC : Nat.testBit 0xFFFFFD7F i = false :=
        Nat.testBit_eq_false_of_lt
          (lt_of_lt_of_le (by norm_num) (Nat.pow_le_pow_right (by norm_num) hi))
      rw [hcw, hC]
      rfl

theorem C9_witness :
    (0x1F80 : Nat) < 2 ^ 32 ∧
    (enable_fp_exceptions 0x1F80).testBit 7 = false ∧
    (enable_fp_exceptions 0x1F80).testBit 9 = false ∧
    (enable_fp_exceptions 0x1F80).testBit 12 = (0x1F80 : Nat).testBit 12 :=
  ⟨by norm_num, (C9_unmask_frame 0x1F80 (by norm_num)).1,
   (C9_unmask_frame 0x1F80 (by norm_num)).2.1,
   (C9_unmask_frame 0x1F80 (by norm_num)).2.2 12 (by decide) (by decide)⟩

/-- Claim C2 counterexample: the claimed happens-before — handler
installation completed before any thread's hardware unmask — fails in the
concurrent model.  Interleaving: thread 0 wins the thread-local and the
process-wide exchanges but is preempted before running the installation;
thread 1 then wins its thread-local exchange, loses the process-wide one
(`HANDLING` is already true), and reaches its hardware unmask while
`handlerInstalled` is still false. -/
theorem C2_counterexample :
    ¬ (∀ s : CState, Reachable (fun _ => 0x1F80) s →
        ∀ t, s.pc t = PC.unmasking → s.handlerInstalled = true) := by
  intro hclaim
  have h0 : Reachable (fun _ => 0x1F80) (initState (fun _ => 0x1F80)) :=
    Relation.ReflTransGen.refl
  have h1 := Relation.ReflTransGen.tail h0
    ⟨0, StepBy.initWin _ rfl rfl⟩
  have h2 := Relation.ReflTransGen.tail h1
    ⟨0, StepBy.handWin _ (by decide) rfl⟩
  have h3 := Relation.ReflTransGen.tail h2
    ⟨1, StepBy.initWin _ (by decide) rfl⟩
  have h4 := Relation.ReflTransGen.tail h3
    ⟨1, StepBy.handLose _ (by decide) rfl⟩
  have hfalse := hclaim _ h4 1 (by decide)
  exact absurd hfalse (by decide)

/-- Claim C2 (amended): on every thread, by the time its hardware unmask
executes, the process-wide `HANDLING` flag is already true (installation
has been claimed by a unique winner), and the winning thread itself
completes the handler installation strictly before its own unmask; but a
thread that loses the process-wide race may, under concurrent
interleaving, unmask before the winner's installation has completed. -/
theorem C2_unmask_ordering {cw₀ : Nat → Nat} {s : CState}
    (h : Reachable cw₀ s) :
    (∀ t, s.pc t = PC.unmasking → s.handling = true) ∧
    (∀ t, s.winner = some t → s.pc t = PC.unmasking →
      s.handlerInstalled = true) := by
  obtain ⟨hA, hB, hC, hD, hE⟩ := reachable_sysInv h
  refine ⟨hE, ?_⟩
  intro t hw hpc
  rcases hD t hw with ⟨h1, _, _⟩ | ⟨_, _, h3⟩
  · rw [hpc] at h1
    exact absurd h1 (by decide)
  · exact h3

theorem C2_unmask_ordering_witness :
    ∃ s : CState, Reachable (fun _ => 0x1F80) s ∧
      s.pc 0 = PC.unmasking ∧ s.handling = true ∧
      s.handlerInstalled = true := by
  have h0 : Reachable (fun _ => 0x1F80) (initState (fun _ => 0x1F80)) :=
    Relation.ReflTransGen.refl
  have h1 := Relation.ReflTransGen.tail h0
    ⟨0, StepBy.initWin _ rfl rfl⟩
  have h2 := Relation.ReflTransGen.tail h1
    ⟨0, StepBy.handWin _ (by decide) rfl⟩
  have h3 := Relation.ReflTransGen.tail h2
    ⟨0, StepBy.install _ (by decide)⟩
  have hm := C2_unmask_ordering h3
  exact ⟨_, h3, by decide, hm.1 0 (by decide), hm.2 0 rfl (by decide)⟩

/-- Claim C5: both flags and the handler are monotonic along every
interleaved execution of `signal()` calls: a thread's `INITIALIZED` flag
never returns to false, `HANDLING` never returns to false, the handler is
never uninstalled, and no cleared (unmasked) bit of any thread's
floating-point control word is ever set again — in particular the two
trap bits are never re-masked. -/
theorem C5_monotonic {s s' : CState}
    (h : Relation.ReflTransGen Step s s') :
    (∀ t, s.initialized t = true → s'.initialized t = true) ∧
    (s.handling = true → s'.handling = true) ∧
    (s.handlerInstalled = true → s'.handlerInstalled = true) ∧
    (∀ t i, (s.cw t).testBit i = false → (s'.cw t).testBit i = false) :=
  steps_mono h

theorem C5_monotonic_witness :
    ((⟨fun _ => true, true, true, fun _ => 0x1D00, fun _ => PC.done,
        some 0, 1⟩ : CState)).handling = true ∧
    (((⟨fun _ => true, true, true, fun _ => 0x1D00, fun _ => PC.done,
        some 0, 1⟩ : CState)).cw 0).testBit 7 = false :=
  ⟨(C5_monotonic Relation.ReflTransGen.refl).2.1 rfl,
   (C5_monotonic Relation.ReflTransGen.refl).2.2.2 0 7 (by decide)⟩

/-- Claim C6: in every reachable state of the concurrent model the
fault-handler installation has run at most once; the process-wide
compare-exchange has been won exactly when `HANDLING` is true, and then by
a unique winner; only that winner can be at the installation step; and
both compare-exchanges use sequentially-consistent ordering on success and
acquire ordering on failure. -/
theorem C6_unique_installer {cw₀ : Nat → Nat} {s : CState}
    (h : Reachable cw₀ s) :
    s.installCount ≤ 1 ∧
    (s.winner.isSome ↔ s.handling = true) ∧
    (∀ t, s.pc t = PC.installing → s.winner = some t) ∧
    initializedCasOrderings = (MemOrd.seqCst, MemOrd.acquire) ∧
    handlingCasOrderings = (MemOrd.seqCst, MemOrd.acquire) := by
  obtain ⟨hA, hB, hC, hD, hE⟩ := reachable_sysInv h
  refine ⟨?_, hA, hB, rfl, rfl⟩
  cases hw : s.winner with
  | none => simp [(hC hw).1]
  | some w => rcases hD w hw with ⟨_, h2, _⟩ | ⟨_, h2, _⟩ <;> simp [h2]

theorem C6_unique_installer_witness :
    ∃ s : CState, Reachable (fun _ => 0x1F80) s ∧ s.installCount ≤ 1 ∧
      s.winner = some 0 ∧ s.handling = true := by
  have h0 : Reachable (fun _ => 0x1F80) (initState (fun _ => 0x1F80)) :=
    Relation.ReflTransGen.refl
  have h1 := Relation.ReflTransGen.tail h0
    ⟨0, StepBy.initWin _ rfl rfl⟩
  have h2 := Relation.ReflTransGen.tail h1
    ⟨0, StepBy.handWin _ (by decide) rfl⟩
  have h3 := Relation.ReflTransGen.tail h2
    ⟨0, StepBy.install _ (by decide)⟩
  have hm := C6_unique_installer h3
  exact ⟨_, h3, hm.1, rfl, hm.2.1.mp (by decide)⟩

/-- Claim C7: every invocation of `signal()` terminates in bounded,
lock-free time: from any global state a thread that has not finished
always has an enabled step (no blocking ever), each of its own steps
strictly decreases its remaining-step count, no other thread's step moves
its program counter, and the remaining-step count is bounded by 4. -/
theorem C7_lockfree_termination :
    (∀ (s : CState) (t : Nat), s.pc t ≠ PC.done → ∃ s', StepBy t s s') ∧
    (∀ (t : Nat) (s s' : CState), StepBy t s s' →
      rank (s'.pc t) < rank (s.pc t)) ∧
    (∀ (t u : Nat) (s s' : CState), StepBy u s s' → u ≠ t →
      s'.pc t = s.pc t) ∧
    (∀ p : PC, rank p ≤ 4) := by
  refine ⟨stepBy_enabled, fun t s s' hs => stepBy_rank_decreases hs,
    fun t u s s' hs hne => stepBy_other_pc hs hne, ?_⟩
  intro p
  cases p <;> decide

theorem C7_lockfree_termination_witness :
    ∃ s', StepBy 0 (initState (fun _ => 0x1F80)) s' :=
  C7_lockfree_termination.1 (initState (fun _ => 0x1F80)) 0 (by decide)

/-- Claim C8 counterexample: an unsupported platform is not rejected at
build configuration time.  A target with a supported architecture
(x86-64) whose platform is neither unix nor windows — so it supplies
neither of the two supported fault-delivery mechanisms — still compiles:
the only `compile_error!` in src/src/lib.rs is gated on the architecture,
and the `#[cfg(unix)]`/`#[cfg(windows)]` installation calls simply vanish. -/
theorem C8_counterexample :
    platformSupported Platform.otherPlatform = false ∧
    buildCompiles Arch.x86_64 Platform.otherPlatform = true := by
  decide

/-- Claim C8 (amended): an unsupported target architecture is rejected at
build configuration time (the build compiles exactly when the architecture
is supported, for every platform); an unsupported platform is NOT
rejected: the crate builds, and at runtime `signal()` simply never
installs a fault handler there while still running without any failure
path — it remains a total function of the pre-state (no error value, no
panic), and a redundant call is still a no-op. -/
theorem C8_build_gating (a : Arch) (p : Platform) :
    (buildCompiles a p = true ↔ archSupported a = true) ∧
    (∀ s : TState,
      (signalEff Platform.otherPlatform s).2.installedHandler = false) ∧
    (∀ s : TState, s.initialized = true →
      signalEff p s = (s, noEffects)) := by
  refine ⟨Iff.rfl, ?_, fun s h => signalEff_noop h⟩
  intro s
  obtain ⟨i, h, hi, c⟩ := s
  cases i <;> cases h <;>
    simp [signalEff, cas, platformSupported, noEffects]

theorem C8_build_gating_witness :
    buildCompiles Arch.x86 Platform.unix = true ∧
    (signalEff Platform.otherPlatform ⟨false, false, false, 0x1F80⟩).2.installedHandler = false :=
  ⟨(C8_build_gating Arch.x86 Platform.unix).1.mpr rfl,
   (C8_build_gating Arch.x86 Platform.unix).2.1 ⟨false, false, false, 0x1F80⟩⟩
